import Mathlib

/-!
Verification of the two command-line utilities of this repository:
`scripts/scan_advancements.py` (advancement scanner) and
`scripts/merge_mc_lang.py` (language merger).

The Python code is shallowly embedded: parsed JSON documents become the
inductive `Json`; Python dicts become association lists with unique keys;
`dict.get` becomes `jget`; `dict.update` becomes `dictUpdate` (iterating the
second dict's items and setting each key, exactly as Python does); ZIP
archives become `Option (List ZipEntry)` where `none` models an archive that
raises `BadZipFile`/`FileNotFoundError` on open; reading and JSON-parsing a
member becomes an `Except String Json` carried by the entry.  Filesystem and
argument-parsing glue (path resolution, printing) is abstracted into the
already-resolved inputs of the embedded functions.
-/

/-- Parsed JSON value, the result of Python `json.load`.  Objects are
association lists (Python preserves insertion order and keeps keys unique;
numbers are modelled as integers, which covers every literal the claims
involve). -/
inductive Json where
  | null
  | bool (b : Bool)
  | num (n : Int)
  | str (s : String)
  | arr (elems : List Json)
  | obj (fields : List (String × Json))

/-- Python truthiness of a parsed JSON value (`if not display:` in the
scanner): `None`, `False`, `0`, `""`, `[]` and an empty dict are falsy. -/
def pyTruthy : Json → Bool
  | .null => false
  | .bool b => b
  | .num n => !(n == 0)
  | .str s => !(s == "")
  | .arr xs => !xs.isEmpty
  | .obj fs => !fs.isEmpty

/-- Python truthiness of an optional value (`None` is falsy). -/
def pyTruthyOpt : Option Json → Bool
  | none => false
  | some j => pyTruthy j

/-- Python `d.get(k)` on a parsed JSON object: the value stored at key `k`,
or `None`.  Parsed objects have unique keys, so first match is the match. -/
def jget : List (String × Json) → String → Option Json
  | [], _ => none
  | p :: ps, k => if p.1 == k then some p.2 else jget ps k

/-- Python `d[k] = v`: overwrite the entry if the key is present, otherwise
append it (CPython keeps insertion order and appends fresh keys). -/
def setKey (d : List (String × Json)) (k : String) (v : Json) :
    List (String × Json) :=
  if d.any (fun p => p.1 == k) then
    d.map (fun p => if p.1 == k then (k, v) else p)
  else d ++ [(k, v)]

/-- Python `a.update(b)`: iterate the items of `b` in order, setting each
key in `a`; colliding keys end with `b`'s value. -/
def dictUpdate (a b : List (String × Json)) : List (String × Json) :=
  b.foldl (fun acc p => setKey acc p.1 p.2) a

/-- Whether key `k` is present in the mapping. -/
def hasKey (d : List (String × Json)) (k : String) : Bool :=
  (jget d k).isSome

/-- Lexicographic character comparison by code point, as Python compares
strings. -/
def charLt (a b : Char) : Bool := Nat.blt a.toNat b.toNat

/-- Lexicographic list-of-characters comparison, Python `<` on strings. -/
def listLtChars : List Char → List Char → Bool
  | [], [] => false
  | [], _ :: _ => true
  | _ :: _, [] => false
  | a :: as, b :: bs => charLt a b || (a == b && listLtChars as bs)

/-- Python `a < b` on strings. -/
def strLtB (a b : String) : Bool := listLtChars a.data b.data

/-- Whether `p` occurs as a contiguous subsequence of `l`, Python's
`pat in s` on strings. -/
def containsSeq (pat : List Char) : List Char → Bool
  | [] => pat.isEmpty
  | c :: rest => pat.isPrefixOf (c :: rest) || containsSeq pat rest

/-- Python `s.endswith(p)`: `p` is a suffix of `l`. -/
def listEndsWith (l p : List Char) : Bool :=
  p.reverse.isPrefixOf l.reverse

/-- Python `s.startswith(p)` on strings. -/
def strStartsWith (s p : String) : Bool := p.data.isPrefixOf s.data

/-- Python `p in s` on strings. -/
def strContains (s p : String) : Bool := containsSeq p.data s.data

/-- Python `s.endswith(p)` on strings. -/
def strEndsWith (s p : String) : Bool := listEndsWith s.data p.data

/-- Stable insertion of a string into a sorted list, placing the new
element before the first element not smaller than it. -/
def insStr (x : String) : List String → List String
  | [] => [x]
  | y :: ys => if strLtB y x then y :: insStr x ys else x :: y :: ys

/-- Python `sorted` on a list of strings (stable, ascending by `<`). -/
def sortStrs : List String → List String
  | [] => []
  | x :: xs => insStr x (sortStrs xs)

/-- One internal file of an archive: its internal path and the result of
opening it and parsing it as JSON (`Except.error` carries the stringified
exception of `json.load`/`zf.open`). -/
structure ZipEntry where
  path : String
  content : Except String Json

/-- Archive contents after a successful open: `none` models an archive whose
open raises (`BadZipFile` for the scanner; `BadZipFile` or
`FileNotFoundError` for the merger, both caught with the same effect). -/
abbrev JarData := Option (List ZipEntry)

/-- Status field of a report entry of the advancement scanner. -/
inductive Status where
  | invalid_json
  | no_display
  | announce_to_chat_false
  | bad_jar
deriving DecidableEq

/-- One flagged record of the scanner's report.  `reason` and `announce`
model the optional `reason` / `announce_to_chat` fields of the Python dict
(present with value `None` and absent key are not distinguished, which no
claim needs). -/
structure ReportEntry where
  jar : String
  path : String
  status : Status
  reason : Option String
  announce : Option Bool
deriving DecidableEq

/-- Line 14 of `scan_advancements.py`: an internal path is processed unless
it fails to start with `data/`, or lacks `/advancements/` as a substring, or
fails to end with `.json`. -/
def advFilter (path : String) : Bool :=
  strStartsWith path "data/" && strContains path "/advancements/" &&
    strEndsWith path ".json"

/-- Line 28: `data.get("display") if isinstance(data, dict) else None`. -/
def displayOf (data : Json) : Option Json :=
  match data with
  | .obj fields => jget fields "display"
  | _ => none

/-- Python `announce is False`: the value is the literal JSON `false`. -/
def isLitFalse : Option Json → Bool
  | some (.bool false) => true
  | _ => false

/-- Line 38: `display.get("announce_to_chat") if isinstance(display, dict)
else None`, for a truthy `display`. -/
def announceOf (display : Option Json) : Option Json :=
  match display with
  | some (.obj fs) => jget fs "announce_to_chat"
  | _ => none

/-- Lines 16-45 of `scan_advancements.py`: classify one advancement
definition file (already past the path filter). -/
def classify (jarName : String) (e : ZipEntry) : List ReportEntry :=
  match e.content with
  | .error err => [⟨jarName, e.path, .invalid_json, some err, none⟩]
  | .ok data =>
    let display := displayOf data
    if pyTruthyOpt display then
      if isLitFalse (announceOf display) then
        [⟨jarName, e.path, .announce_to_chat_false, none, some false⟩]
      else []
    else [⟨jarName, e.path, .no_display, none, none⟩]

/-- Body of the scanner loop for one internal path: skip it unless the path
filter passes, otherwise classify it. -/
def scanEntry (jarName : String) (e : ZipEntry) : List ReportEntry :=
  if advFilter e.path then classify jarName e else []

/-- List concatenation of the images of `f`, used to collect the entries
appended by a loop. -/
def concatMap (f : α → List β) : List α → List β
  | [] => []
  | x :: xs => f x ++ concatMap f xs

/-- Function `scan_jar` of `scan_advancements.py`: a single `bad_jar` entry when the
archive cannot be opened, otherwise the entries appended for each internal
path in order. -/
def scan_jar (jarName : String) (zip : JarData) : List ReportEntry :=
  match zip with
  | none => [⟨jarName, "", .bad_jar, some "bad zip", none⟩]
  | some es => concatMap (scanEntry jarName) es

/-- Lines 78-79 of `scan_advancements.py`: `report["flagged"]` is extended
with `scan_jar`'s results for each archive in order. -/
def scanMods (jars : List (String × JarData)) : List ReportEntry :=
  jars.foldl (fun acc p => acc ++ scan_jar p.1 p.2) []

/-- Stable insertion of a named archive into a list sorted by name. -/
def insPair (x : String × JarData) :
    List (String × JarData) → List (String × JarData)
  | [] => [x]
  | y :: ys => if strLtB y.1 x.1 then y :: insPair x ys else x :: y :: ys

/-- Python `sorted` over a directory's archives, by filename. -/
def sortPairs : List (String × JarData) → List (String × JarData)
  | [] => []
  | x :: xs => insPair x (sortPairs xs)

/-- A Minecraft version directory: its final path component (`name`) and its
directory listing, pairing each file name with the archive contents obtained
when opening it. -/
structure VDir where
  name : String
  entries : List (String × JarData)

/-- Contents obtained by opening the named file of the directory (`none`
both when the open raises and when the name is absent, matching the caught
`FileNotFoundError`). -/
def lookupJar (d : VDir) (n : String) : JarData :=
  match d.entries.find? (fun p => p.1 == n) with
  | some p => p.2
  | none => none

/-- Function `find_version_jar` of `merge_mc_lang.py`: the archive named
`<directory-name>.jar` when present, else the first of the sorted `*.jar`
files (the `len(jars) == 1` branch of the source is kept, though it returns
the same file as the branch after it), else nothing. -/
def find_version_jar (d : VDir) : Option String :=
  if (d.entries.map Prod.fst).contains (d.name ++ ".jar") then
    some (d.name ++ ".jar")
  else
    let jars := sortStrs ((d.entries.map Prod.fst).filter
      (fun f => strEndsWith f ".jar"))
    if jars.length = 1 then jars.head?
    else if jars.isEmpty = false then jars.head?
    else none

/-- Loop body of `load_lang_from_jar`: a member whose path ends in
`lang/zh_cn.json` and parses to a JSON object is merged into the accumulator
and counted; anything else (wrong path, parse failure, non-object payload)
leaves the accumulator unchanged. -/
def jarStep (acc : List (String × Json) × Nat) (e : ZipEntry) :
    List (String × Json) × Nat :=
  if strEndsWith e.path "lang/zh_cn.json" then
    match e.content with
    | .ok (.obj fields) => (dictUpdate acc.1 fields, acc.2 + 1)
    | _ => acc
  else acc

/-- Function `load_lang_from_jar` of `merge_mc_lang.py`: fold the archive's members;
an unreadable or missing archive yields `({}, 0)`. -/
def load_lang_from_jar (jar : JarData) : List (String × Json) × Nat :=
  match jar with
  | none => ([], 0)
  | some entries => entries.foldl jarStep ([], 0)

/-- Python `"hash" in xs` for a parsed JSON array: membership by equality,
which only a string element equal to `"hash"` satisfies. -/
def isHashStr : Json → Bool
  | .str s => s == "hash"
  | _ => false

/-- Function `load_lang_from_assets` of `merge_mc_lang.py`.  The index argument is
the result of reading and JSON-parsing the index file (the caught
`Exception` of lines 45-49 is `Except.error`); `store` maps a hash to the
result of reading and parsing the content-addressed object file.  The
`Except Unit` result records the uncaught Python exceptions of lines 51-57:
`.get` on a non-dict index or non-dict `objects` value raises
`AttributeError`, `in` on a truthy number or boolean raises `TypeError`,
indexing a truthy string or array raises `TypeError`, and a non-string hash
makes `h[:2]` or the path join raise `TypeError`. -/
def load_lang_from_assets (index : Except Unit Json)
    (store : String → Except Unit Json) :
    Except Unit (List (String × Json) × Nat) :=
  match index with
  | .error _ => .ok ([], 0)
  | .ok idx =>
    match idx with
    | .obj top =>
      match (jget top "objects").getD (.obj []) with
      | .obj objs =>
        match jget objs "minecraft/lang/zh_cn.json" with
        | none => .ok ([], 0)
        | some v =>
          if pyTruthy v then
            match v with
            | .obj fs =>
              match jget fs "hash" with
              | none => .ok ([], 0)
              | some (.str h) =>
                match store h with
                | .error _ => .ok ([], 0)
                | .ok data =>
                  match data with
                  | .obj fields => .ok (fields, 1)
                  | _ => .ok ([], 0)
              | some _ => .error ()
            | .str s => if strContains s "hash" then .error () else .ok ([], 0)
            | .arr xs => if xs.any isHashStr then .error () else .ok ([], 0)
            | _ => .error ()
          else .ok ([], 0)
      | _ => .error ()
    | _ => .error ()

/-- Lines 136-143 (and their twins): when both an assets index and an
objects directory were supplied, load from them and merge into the empty
base accumulator when the load found the resource; otherwise nothing. -/
def assetsFallback (ai : Option (Except Unit Json))
    (ao : Option (String → Except Unit Json)) :
    Except Unit (List (String × Json) × Nat) :=
  match ai, ao with
  | some i, some o =>
    match load_lang_from_assets i o with
    | .error e => .error e
    | .ok (d, c) => if c ≠ 0 then .ok (dictUpdate [] d, c) else .ok ([], 0)
  | _, _ => .ok ([], 0)

/-- Lines 129-143 (and 147-161): load the chosen archive into the empty
accumulator; when it yields no resource, fall back to the assets pair. -/
def jarThenAssets (j : JarData) (ai : Option (Except Unit Json))
    (ao : Option (String → Except Unit Json)) :
    Except Unit (List (String × Json) × Nat) :=
  if (load_lang_from_jar j).2 ≠ 0 then
    .ok (dictUpdate [] (load_lang_from_jar j).1, (load_lang_from_jar j).2)
  else assetsFallback ai ao

/-- Lines 128-179 of `merge_mc_lang.py`: resolution of the base source.
Returns the accumulator and source count after the base stage (the
accumulator starts empty at line 122). -/
def basePhase (base_jar : Option JarData) (vdir : Option VDir)
    (ai : Option (Except Unit Json))
    (ao : Option (String → Except Unit Json)) :
    Except Unit (List (String × Json) × Nat) :=
  match base_jar with
  | some j => jarThenAssets j ai ao
  | none =>
    match vdir with
    | some d =>
      match find_version_jar d with
      | some n => jarThenAssets (lookupJar d n) ai ao
      | none => assetsFallback ai ao
    | none => assetsFallback ai ao

/-- Lines 181-194 of `merge_mc_lang.py`: unless disabled, fold the sorted
`*.jar` files of the resolved mods directory into the accumulator, merging
each archive's result only when its count is nonzero.  `mods = none` covers
both an unresolved and a missing mods directory. -/
def modsPhase (m0 : List (String × Json))
    (mods : Option (List (String × JarData))) (no_mods : Bool) :
    List (String × Json) :=
  if no_mods then m0
  else
    match mods with
    | none => m0
    | some listing =>
      (sortPairs (listing.filter (fun p => strEndsWith p.1 ".jar"))).foldl
        (fun m p =>
          if (load_lang_from_jar p.2).2 ≠ 0 then
            dictUpdate m (load_lang_from_jar p.2).1
          else m) m0

/-- Command-line inputs of the merger after path resolution.  `version_dir`
is `none` when the positional argument is absent, `some none` when it names
a missing directory, `some (some d)` when it resolves; `mods` is the
resolved mods directory (the `--mods-dir` flag or `<version_dir>/mods`),
with `none` for unresolved-or-missing. -/
structure MergerArgs where
  version_dir : Option (Option VDir)
  base_jar : Option JarData
  assets_index : Option (Except Unit Json)
  assets_objects : Option (String → Except Unit Json)
  mods : Option (List (String × JarData))
  output : Option String
  no_mods : Bool

/-- Observable outcome of `main`: the exit code and the mapping written to
the output file (nothing when `main` returned before writing). -/
structure MergeResult where
  exitCode : Nat
  written : Option (List (String × Json))

/-- The version directory actually used by the body of `main`. -/
def vdirOf (a : MergerArgs) : Option VDir :=
  match a.version_dir with
  | some (some v) => some v
  | _ => none

/-- Function `main` of `merge_mc_lang.py`: exit 1 on a specified-but-missing version
directory (lines 107-112), exit 1 when neither an output path nor a version
directory fixes the output (lines 114-120), otherwise run the base phase
and the mods phase and write the result (an `Except.error` models an
uncaught exception escaping `main`). -/
def merger_main (a : MergerArgs) : Except Unit MergeResult :=
  match a.version_dir with
  | some none => .ok ⟨1, none⟩
  | _ =>
    if a.output.isNone && (vdirOf a).isNone then .ok ⟨1, none⟩
    else
      match basePhase a.base_jar (vdirOf a) a.assets_index a.assets_objects with
      | .error e => .error e
      | .ok (m1, _) => .ok ⟨0, some (modsPhase m1 a.mods a.no_mods)⟩

/-- A Boolean prefix test succeeds exactly when the list decomposes with the
pattern in front. -/
theorem isPrefixOf_eq_true : ∀ (p l : List Char),
    p.isPrefixOf l = true ↔ ∃ t, l = p ++ t
  | [], l => by simp [List.isPrefixOf]
  | a :: as, [] => by simp [List.isPrefixOf]
  | a :: as, b :: bs => by
    simp only [List.isPrefixOf, Bool.and_eq_true, beq_iff_eq]
    constructor
    · rintro ⟨rfl, h⟩
      obtain ⟨t, rfl⟩ := (isPrefixOf_eq_true as bs).1 h
      exact ⟨t, rfl⟩
    · rintro ⟨t, ht⟩
      rw [List.cons_append] at ht
      injection ht with h1 h2
      exact ⟨h1.symm, (isPrefixOf_eq_true as bs).2 ⟨t, h2⟩⟩

/-- The Boolean suffix test succeeds exactly when the list decomposes with
the pattern at the back. -/
theorem listEndsWith_eq_true (l p : List Char) :
    listEndsWith l p = true ↔ ∃ w, l = w ++ p := by
  unfold listEndsWith
  rw [isPrefixOf_eq_true]
  constructor
  · rintro ⟨t, ht⟩
    refine ⟨t.reverse, ?_⟩
    have h2 := congrArg List.reverse ht
    simpa using h2
  · rintro ⟨w, rfl⟩
    exact ⟨w.reverse, by simp⟩

/-- The Boolean substring test succeeds exactly when the list decomposes
around the pattern. -/
theorem containsSeq_eq_true : ∀ (pat l : List Char),
    containsSeq pat l = true ↔ ∃ u v, l = u ++ pat ++ v
  | pat, [] => by
    simp only [containsSeq, List.isEmpty_eq_true]
    constructor
    · rintro rfl
      exact ⟨[], [], rfl⟩
    · rintro ⟨u, v, h⟩
      have h2 := h.symm
      simp only [List.append_eq_nil] at h2
      exact h2.1.2
  | pat, c :: rest => by
    simp only [containsSeq, Bool.or_eq_true]
    rw [isPrefixOf_eq_true, containsSeq_eq_true pat rest]
    constructor
    · rintro (⟨t, ht⟩ | ⟨u, v, hv⟩)
      · exact ⟨[], t, by simpa using ht⟩
      · exact ⟨c :: u, v, by rw [hv]; simp⟩
    · rintro ⟨u, v, h⟩
      cases u with
      | nil => exact Or.inl ⟨v, by simpa using h⟩
      | cons a us =>
        rw [List.cons_append, List.cons_append] at h
        injection h with h1 h2
        exact Or.inr ⟨us, v, h2⟩

/-- Overwriting a present key makes lookup of that key return the new
value. -/
theorem jget_map_set : ∀ (d : List (String × Json)) (k : String) (v : Json),
    d.any (fun p => p.1 == k) = true →
    jget (d.map (fun p => if p.1 == k then (k, v) else p)) k = some v
  | [], k, v, h => by simp at h
  | p :: ps, k, v, h => by
    by_cases hp : (p.1 == k) = true
    · simp [jget, hp]
    · simp only [List.any_cons, Bool.or_eq_true] at h
      have hps : ps.any (fun p => p.1 == k) = true := by
        rcases h with h | h
        · exact absurd h hp
        · exact h
      have hp' : (p.1 == k) = false := by
        simpa using hp
      simp only [List.map_cons, hp', if_false, jget, Bool.false_eq_true]
      exact jget_map_set ps k v hps

/-- Appending a fresh key makes lookup of that key return the new value. -/
theorem jget_append_fresh : ∀ (d : List (String × Json)) (k : String) (v : Json),
    d.any (fun p => p.1 == k) = false →
    jget (d ++ [(k, v)]) k = some v
  | [], k, v, _ => by simp [jget]
  | p :: ps, k, v, h => by
    simp only [List.any_cons, Bool.or_eq_false_iff] at h
    simp only [List.cons_append, jget, h.1, Bool.false_eq_true, if_false]
    exact jget_append_fresh ps k v h.2

/-- After `d[k] = v`, looking up `k` yields `v`. -/
theorem jget_setKey_self (d : List (String × Json)) (k : String) (v : Json) :
    jget (setKey d k v) k = some v := by
  unfold setKey
  by_cases h : d.any (fun p => p.1 == k) = true
  · rw [if_pos h]
    exact jget_map_set d k v h
  · rw [if_neg h]
    exact jget_append_fresh d k v (by rwa [Bool.not_eq_true] at h)

/-- Overwriting key `k1` does not change lookups of a different key. -/
theorem jget_map_other : ∀ (d : List (String × Json)) (k1 k : String) (v : Json),
    k1 ≠ k →
    jget (d.map (fun p => if p.1 == k1 then (k1, v) else p)) k = jget d k
  | [], _, _, _, _ => rfl
  | p :: ps, k1, k, v, hne => by
    by_cases hp : (p.1 == k1) = true
    · have hpe : p.1 = k1 := by simpa using hp
      have hpk : (p.1 == k) = false := by
        simp [hpe, hne]
      have hk1k : (k1 == k) = false := by
        simp [hne]
      simp only [List.map_cons, hp, if_true, jget, hpk, hk1k,
        Bool.false_eq_true, if_false]
      exact jget_map_other ps k1 k v hne
    · have hp' : (p.1 == k1) = false := by simpa using hp
      simp only [List.map_cons, hp', Bool.false_eq_true, if_false, jget]
      by_cases hpk : (p.1 == k) = true
      · simp [hpk]
      · have hpk' : (p.1 == k) = false := by simpa using hpk
        simp only [hpk', Bool.false_eq_true, if_false]
        exact jget_map_other ps k1 k v hne

/-- Appending an entry for key `k1` does not change lookups of a different
key. -/
theorem jget_append_other : ∀ (d : List (String × Json)) (k1 k : String) (v : Json),
    k1 ≠ k →
    jget (d ++ [(k1, v)]) k = jget d k
  | [], k1, k, v, hne => by
    simp [jget, show (k1 == k) = false by simp [hne]]
  | p :: ps, k1, k, v, hne => by
    simp only [List.cons_append, jget]
    by_cases hpk : (p.1 == k) = true
    · simp [hpk]
    · have hpk' : (p.1 == k) = false := by simpa using hpk
      simp only [hpk', Bool.false_eq_true, if_false]
      exact jget_append_other ps k1 k v hne

/-- After `d[k1] = v`, lookups of a different key are unchanged. -/
theorem jget_setKey_other (d : List (String × Json)) (k1 k : String) (v : Json)
    (hne : k1 ≠ k) : jget (setKey d k1 v) k = jget d k := by
  unfold setKey
  by_cases h : d.any (fun p => p.1 == k1) = true
  · rw [if_pos h]
    exact jget_map_other d k1 k v hne
  · rw [if_neg h]
    exact jget_append_other d k1 k v hne

/-- Key presence after `d[k1] = v`: the old keys plus `k1`. -/
theorem hasKey_setKey (d : List (String × Json)) (k1 k : String) (v : Json) :
    hasKey (setKey d k1 v) k = (hasKey d k || (k1 == k)) := by
  by_cases h : k1 = k
  · subst h
    simp [hasKey, jget_setKey_self]
  · have : (k1 == k) = false := by simp [h]
    simp [hasKey, jget_setKey_other d k1 k v h, this]

/-- Merging a dict none of whose items mention key `k` leaves lookups of
`k` unchanged. -/
theorem jget_dictUpdate_absent : ∀ (b a : List (String × Json)) (k : String),
    (∀ p ∈ b, p.1 ≠ k) →
    jget (dictUpdate a b) k = jget a k
  | [], _, _, _ => rfl
  | q :: bs, a, k, h => by
    have h1 : q.1 ≠ k := h q (List.mem_cons_self q bs)
    have ih := jget_dictUpdate_absent bs (setKey a q.1 q.2) k
      (fun p hp => h p (List.mem_cons_of_mem q hp))
    show jget (dictUpdate (setKey a q.1 q.2) bs) k = jget a k
    rw [ih]
    exact jget_setKey_other a q.1 k q.2 h1

/-- Lookup of a cons cell, split on the head key. -/
theorem jget_cons (q : String × Json) (bs : List (String × Json)) (k : String) :
    jget (q :: bs) k = if q.1 == k then some q.2 else jget bs k := rfl

/-- Core of C4: when the second dict has unique keys (as every parsed JSON
object does) and contains key `k`, the merge `a.update(b)` maps `k` to `b`'s
value. -/
theorem jget_dictUpdate_right : ∀ (b a : List (String × Json)) (k : String),
    (b.map Prod.fst).Nodup → hasKey b k = true →
    jget (dictUpdate a b) k = jget b k
  | [], a, k, _, hb => by simp [hasKey, jget] at hb
  | q :: bs, a, k, hnd, hb => by
    have hnd' : (bs.map Prod.fst).Nodup ∧ q.1 ∉ bs.map Prod.fst := by
      have h2 : (q.1 :: bs.map Prod.fst).Nodup := by simpa using hnd
      exact ⟨(List.nodup_cons.mp h2).2, (List.nodup_cons.mp h2).1⟩
    by_cases hq : (q.1 == k) = true
    · have hqe : q.1 = k := by simpa using hq
      have habs : ∀ p ∈ bs, p.1 ≠ k := by
        intro p hp hpk
        exact hnd'.2 (by
          rw [hqe, ← hpk]
          exact List.mem_map_of_mem Prod.fst hp)
      show jget (dictUpdate (setKey a q.1 q.2) bs) k = jget (q :: bs) k
      rw [jget_dictUpdate_absent bs _ k habs, jget_cons, if_pos hq]
      rw [hqe]
      exact jget_setKey_self a k q.2
    · have hq' : (q.1 == k) = false := by simpa using hq
      have hb' : hasKey bs k = true := by
        simpa [hasKey, jget_cons, hq', Bool.false_eq_true] using hb
      show jget (dictUpdate (setKey a q.1 q.2) bs) k = jget (q :: bs) k
      rw [jget_dictUpdate_right bs (setKey a q.1 q.2) k hnd'.1 hb']
      rw [jget_cons, if_neg (by simp [hq'])]

/-- Key presence in a merge: the union of the two key sets. -/
theorem hasKey_dictUpdate : ∀ (b a : List (String × Json)) (k : String),
    hasKey (dictUpdate a b) k = (hasKey a k || hasKey b k)
  | [], a, k => by simp [dictUpdate, hasKey, jget]
  | q :: bs, a, k => by
    show hasKey (dictUpdate (setKey a q.1 q.2) bs) k = _
    rw [hasKey_dictUpdate bs]
    rw [hasKey_setKey]
    have hc : hasKey (q :: bs) k = ((q.1 == k) || hasKey bs k) := by
      by_cases hq : (q.1 == k) = true <;>
        simp [hasKey, jget_cons, hq]
    rw [hc, Bool.or_assoc]

/-- Key presence after folding a list of dicts into an accumulator. -/
theorem hasKey_foldl_dictUpdate :
    ∀ (objs : List (List (String × Json))) (m : List (String × Json))
      (k : String),
    hasKey (objs.foldl dictUpdate m) k
      = (hasKey m k || objs.any (fun d => hasKey d k))
  | [], m, k => by simp
  | d :: ds, m, k => by
    simp only [List.foldl_cons, List.any_cons]
    rw [hasKey_foldl_dictUpdate ds, hasKey_dictUpdate, Bool.or_assoc]

/-- The localization resource a member contributes: its parsed fields when
its path has the language suffix and it parses to a JSON object. -/
def entryLangObj (e : ZipEntry) : Option (List (String × Json)) :=
  if strEndsWith e.path "lang/zh_cn.json" then
    match e.content with
    | .ok (.obj fields) => some fields
    | _ => none
  else none

/-- The successfully parsed object resources of an archive, in member
order. -/
def jarLangObjs (jar : JarData) : List (List (String × Json)) :=
  match jar with
  | none => []
  | some es => es.filterMap entryLangObj

/-- The loop body of `load_lang_from_jar`, rephrased through the
contributed resource. -/
theorem jarStep_eq (acc : List (String × Json) × Nat) (e : ZipEntry) :
    jarStep acc e = (match entryLangObj e with
      | some fs => (dictUpdate acc.1 fs, acc.2 + 1)
      | none => acc) := by
  unfold jarStep entryLangObj
  by_cases hp : strEndsWith e.path "lang/zh_cn.json" = true
  · simp only [hp, if_true]
    rcases e.content with err | data
    · rfl
    · cases data <;> rfl
  · have hp' : strEndsWith e.path "lang/zh_cn.json" = false := by
      rwa [Bool.not_eq_true] at hp
    simp [hp', Bool.false_eq_true]

/-- Folding the members equals folding the contributed resources, with the
count tracking how many there were. -/
theorem foldl_jarStep : ∀ (es : List ZipEntry) (acc : List (String × Json) × Nat),
    es.foldl jarStep acc
      = ((es.filterMap entryLangObj).foldl dictUpdate acc.1,
         acc.2 + (es.filterMap entryLangObj).length)
  | [], acc => by simp
  | e :: es, acc => by
    rw [List.foldl_cons, jarStep_eq]
    cases ho : entryLangObj e with
    | none =>
      simp only [List.filterMap_cons, ho]
      exact foldl_jarStep es acc
    | some fs =>
      simp only [List.filterMap_cons, ho]
      rw [foldl_jarStep es (dictUpdate acc.1 fs, acc.2 + 1)]
      simp only [List.foldl_cons, List.length_cons, Prod.mk.injEq]
      exact ⟨trivial, by omega⟩

/-- Function `load_lang_from_jar` merges exactly the contributed resources and
counts them. -/
theorem load_jar_decomp (jar : JarData) :
    load_lang_from_jar jar
      = ((jarLangObjs jar).foldl dictUpdate [], (jarLangObjs jar).length) := by
  cases jar with
  | none => rfl
  | some es =>
    show es.foldl jarStep ([], 0) = _
    rw [foldl_jarStep es ([], 0)]
    simp [jarLangObjs]

/-- Key presence in an archive's merged resource: some contributed resource
holds the key. -/
theorem hasKey_load_jar (jar : JarData) (k : String) :
    hasKey (load_lang_from_jar jar).1 k
      = (jarLangObjs jar).any (fun d => hasKey d k) := by
  rw [load_jar_decomp]
  rw [show ((jarLangObjs jar).foldl dictUpdate [],
      (jarLangObjs jar).length).1 = (jarLangObjs jar).foldl dictUpdate [] from rfl]
  rw [hasKey_foldl_dictUpdate]
  simp [hasKey, jget]

/-- The count returned for an archive is the number of contributed
resources. -/
theorem load_jar_count (jar : JarData) :
    (load_lang_from_jar jar).2 = (jarLangObjs jar).length := by
  rw [load_jar_decomp]

/-- Membership is preserved by stable insertion. -/
theorem mem_insPair : ∀ (l : List (String × JarData)) (x y : String × JarData),
    y ∈ insPair x l ↔ y = x ∨ y ∈ l
  | [], x, y => by simp [insPair]
  | z :: zs, x, y => by
    unfold insPair
    by_cases h : strLtB z.1 x.1 = true
    · simp only [h, if_true, List.mem_cons, mem_insPair zs x y]
      tauto
    · have h' : strLtB z.1 x.1 = false := by rwa [Bool.not_eq_true] at h
      simp only [h', Bool.false_eq_true, if_false, List.mem_cons]

/-- Membership is preserved by sorting. -/
theorem mem_sortPairs : ∀ (l : List (String × JarData)) (y : String × JarData),
    y ∈ sortPairs l ↔ y ∈ l
  | [], y => Iff.rfl
  | x :: xs, y => by
    unfold sortPairs
    rw [mem_insPair, mem_sortPairs xs]
    simp [List.mem_cons]

/-- Folding archives whose loads all found nothing leaves the accumulator
unchanged. -/
theorem foldl_mods_id : ∀ (l : List (String × JarData)) (m0 : List (String × Json)),
    (∀ p ∈ l, (load_lang_from_jar p.2).2 = 0) →
    l.foldl (fun m p =>
      if (load_lang_from_jar p.2).2 ≠ 0 then
        dictUpdate m (load_lang_from_jar p.2).1
      else m) m0 = m0
  | [], m0, _ => rfl
  | p :: ps, m0, h => by
    have h1 : (load_lang_from_jar p.2).2 = 0 := h p (List.mem_cons_self p ps)
    rw [List.foldl_cons, if_neg (by omega)]
    exact foldl_mods_id ps m0 (fun q hq => h q (List.mem_cons_of_mem p hq))

/-- The object resources merged by the mods stage, in processing order. -/
def modsObjs (mods : Option (List (String × JarData))) (nm : Bool) :
    List (List (String × Json)) :=
  if nm then []
  else
    match mods with
    | none => []
    | some listing =>
      concatMap (fun p => jarLangObjs p.2)
        (sortPairs (listing.filter (fun p => strEndsWith p.1 ".jar")))

/-- Any-over-concatenation distributes over the pieces. -/
theorem any_concatMap : ∀ (l : List α) (f : α → List β) (q : β → Bool),
    (concatMap f l).any q = l.any (fun x => (f x).any q)
  | [], _, _ => rfl
  | x :: xs, f, q => by
    simp [concatMap, List.any_append, any_concatMap xs f q]

/-- Key presence after the mods fold: the accumulator's keys plus the keys
of every resource contributed by an archive whose count was nonzero. -/
theorem hasKey_modsFold : ∀ (l : List (String × JarData))
    (m0 : List (String × Json)) (k : String),
    hasKey (l.foldl (fun m p =>
      if (load_lang_from_jar p.2).2 ≠ 0 then
        dictUpdate m (load_lang_from_jar p.2).1
      else m) m0) k
    = (hasKey m0 k
        || (concatMap (fun p => jarLangObjs p.2) l).any (fun d => hasKey d k))
  | [], m0, k => by simp [concatMap]
  | p :: ps, m0, k => by
    rw [List.foldl_cons]
    by_cases hc : (load_lang_from_jar p.2).2 ≠ 0
    · rw [if_pos hc, hasKey_modsFold ps, hasKey_dictUpdate, hasKey_load_jar]
      simp only [concatMap, List.any_append]
      rw [Bool.or_assoc]
    · have h0 : (load_lang_from_jar p.2).2 = 0 := by omega
      have hobj : jarLangObjs p.2 = [] := by
        have hl := load_jar_count p.2
        rw [h0] at hl
        exact List.length_eq_zero.mp hl.symm
      rw [if_neg hc, hasKey_modsFold ps]
      simp [concatMap, hobj]

/-- Key presence after the mods phase. -/
theorem hasKey_modsPhase (m0 : List (String × Json))
    (mods : Option (List (String × JarData))) (nm : Bool) (k : String) :
    hasKey (modsPhase m0 mods nm) k
      = (hasKey m0 k || (modsObjs mods nm).any (fun d => hasKey d k)) := by
  unfold modsPhase modsObjs
  by_cases hnm : nm = true
  · simp [hnm]
  · have hnm' : nm = false := by rwa [Bool.not_eq_true] at hnm
    simp only [hnm', Bool.false_eq_true, if_false]
    cases mods with
    | none => simp
    | some listing => exact hasKey_modsFold _ m0 k

/-- The object resources the assets fallback merges (one or none). -/
def assetsObjs (ai : Option (Except Unit Json))
    (ao : Option (String → Except Unit Json)) :
    List (List (String × Json)) :=
  match ai, ao with
  | some i, some o =>
    match load_lang_from_assets i o with
    | .ok (d, c) => if c ≠ 0 then [d] else []
    | .error _ => []
  | _, _ => []

/-- Key presence after the assets fallback. -/
theorem hasKey_assetsFallback (ai : Option (Except Unit Json))
    (ao : Option (String → Except Unit Json))
    (m : List (String × Json)) (s : Nat) (k : String)
    (h : assetsFallback ai ao = .ok (m, s)) :
    hasKey m k = (assetsObjs ai ao).any (fun d => hasKey d k) := by
  cases ai with
  | none =>
    simp only [assetsFallback] at h
    obtain ⟨hm, hs⟩ : ([] : List (String × Json)) = m ∧ 0 = s := by
      simpa using h
    subst hm
    simp [assetsObjs, hasKey, jget]
  | some i =>
    cases ao with
    | none =>
      simp only [assetsFallback] at h
      obtain ⟨hm, hs⟩ : ([] : List (String × Json)) = m ∧ 0 = s := by
        simpa using h
      subst hm
      simp [assetsObjs, hasKey, jget]
    | some o =>
      simp only [assetsFallback] at h
      cases hl : load_lang_from_assets i o with
      | error e =>
        rw [hl] at h
        simp at h
      | ok p =>
        obtain ⟨d, c⟩ := p
        have h2 : (if c ≠ 0 then Except.ok (dictUpdate [] d, c)
            else Except.ok (([] : List (String × Json)), 0))
            = (Except.ok (m, s) : Except Unit (List (String × Json) × Nat)) := by
          rw [hl] at h
          exact h
        have hobjs : assetsObjs (some i) (some o)
            = (if c ≠ 0 then [d] else []) := by
          rw [show assetsObjs (some i) (some o)
              = (match load_lang_from_assets i o with
                 | Except.ok (d, c) => if c ≠ 0 then [d] else []
                 | Except.error _ => []) from rfl, hl]
        rw [hobjs]
        by_cases hc : c ≠ 0
        · rw [if_pos hc] at h2 ⊢
          obtain ⟨hm, hs⟩ : dictUpdate [] d = m ∧ c = s := by simpa using h2
          subst hm
          rw [hasKey_dictUpdate]
          simp [hasKey, jget]
        · rw [if_neg hc] at h2 ⊢
          obtain ⟨hm, hs⟩ : ([] : List (String × Json)) = m ∧ 0 = s := by
            simpa using h2
          subst hm
          simp [hasKey, jget]

/-- The object resources the archive-then-assets stage merges. -/
def jarObjsOrAssets (j : JarData) (ai : Option (Except Unit Json))
    (ao : Option (String → Except Unit Json)) :
    List (List (String × Json)) :=
  if (load_lang_from_jar j).2 ≠ 0 then jarLangObjs j else assetsObjs ai ao

/-- Key presence after the archive-then-assets stage. -/
theorem hasKey_jarThenAssets (j : JarData) (ai : Option (Except Unit Json))
    (ao : Option (String → Except Unit Json))
    (m : List (String × Json)) (s : Nat) (k : String)
    (h : jarThenAssets j ai ao = .ok (m, s)) :
    hasKey m k = (jarObjsOrAssets j ai ao).any (fun d => hasKey d k) := by
  unfold jarThenAssets at h
  unfold jarObjsOrAssets
  by_cases hc : (load_lang_from_jar j).2 ≠ 0
  · rw [if_pos hc] at h ⊢
    obtain ⟨hm, hs⟩ : dictUpdate [] (load_lang_from_jar j).1 = m
        ∧ (load_lang_from_jar j).2 = s := by simpa using h
    subst hm
    rw [hasKey_dictUpdate, hasKey_load_jar]
    simp [hasKey, jget]
  · rw [if_neg hc] at h ⊢
    exact hasKey_assetsFallback ai ao m s k h

/-- The object resources the base phase merges, following its resolution
branches. -/
def baseObjs (base_jar : Option JarData) (vdir : Option VDir)
    (ai : Option (Except Unit Json))
    (ao : Option (String → Except Unit Json)) :
    List (List (String × Json)) :=
  match base_jar with
  | some j => jarObjsOrAssets j ai ao
  | none =>
    match vdir with
    | some d =>
      match find_version_jar d with
      | some n => jarObjsOrAssets (lookupJar d n) ai ao
      | none => assetsObjs ai ao
    | none => assetsObjs ai ao

/-- Key presence after the base phase. -/
theorem hasKey_basePhase (bj : Option JarData) (vd : Option VDir)
    (ai : Option (Except Unit Json))
    (ao : Option (String → Except Unit Json))
    (m : List (String × Json)) (s : Nat) (k : String)
    (h : basePhase bj vd ai ao = .ok (m, s)) :
    hasKey m k = (baseObjs bj vd ai ao).any (fun d => hasKey d k) := by
  cases bj with
  | some j =>
    exact hasKey_jarThenAssets j ai ao m s k h
  | none =>
    cases vd with
    | none => exact hasKey_assetsFallback ai ao m s k h
    | some d =>
      have hb : basePhase none (some d) ai ao
          = (match find_version_jar d with
             | some n => jarThenAssets (lookupJar d n) ai ao
             | none => assetsFallback ai ao) := rfl
      rw [hb] at h
      have hBo : baseObjs none (some d) ai ao
          = (match find_version_jar d with
             | some n => jarObjsOrAssets (lookupJar d n) ai ao
             | none => assetsObjs ai ao) := rfl
      rw [hBo]
      cases hf : find_version_jar d with
      | some n =>
        rw [hf] at h
        exact hasKey_jarThenAssets (lookupJar d n) ai ao m s k h
      | none =>
        rw [hf] at h
        exact hasKey_assetsFallback ai ao m s k h

/-- Every localization resource that was successfully parsed as a JSON
object and merged during a run, in processing order: the base phase's
contribution followed by the mods phase's. -/
def consultedObjs (a : MergerArgs) : List (List (String × Json)) :=
  baseObjs a.base_jar (vdirOf a) a.assets_index a.assets_objects
    ++ modsObjs a.mods a.no_mods

/-- Key presence of the mapping produced by the writing branch of `main`. -/
theorem mainBody_keys (a : MergerArgs) (m : List (String × Json)) (k : String)
    (h : (match basePhase a.base_jar (vdirOf a) a.assets_index a.assets_objects with
      | .error e => .error e
      | .ok (m1, _) => .ok ⟨0, some (modsPhase m1 a.mods a.no_mods)⟩)
      = (.ok ⟨0, some m⟩ : Except Unit MergeResult)) :
    (hasKey m k = true ↔ ∃ d ∈ consultedObjs a, hasKey d k = true) := by
  cases hb : basePhase a.base_jar (vdirOf a) a.assets_index a.assets_objects with
  | error e =>
    rw [hb] at h
    simp at h
  | ok p =>
    obtain ⟨m1, s1⟩ := p
    have h3 : (Except.ok ⟨0, some (modsPhase m1 a.mods a.no_mods)⟩
        : Except Unit MergeResult) = .ok ⟨0, some m⟩ := by
      rw [hb] at h
      exact h
    have hw : some (modsPhase m1 a.mods a.no_mods) = some m :=
      congrArg MergeResult.written (Except.ok.inj h3)
    have hm : modsPhase m1 a.mods a.no_mods = m := Option.some.inj hw
    subst hm
    rw [hasKey_modsPhase,
      hasKey_basePhase a.base_jar (vdirOf a) a.assets_index a.assets_objects
        m1 s1 k hb]
    unfold consultedObjs
    rw [← List.any_append]
    simp only [List.any_eq_true, List.mem_append]

/-- C5 (confirmed): the key set of the merged mapping written to the output
equals the union of the key sets of all localization resources that were
successfully parsed as JSON objects during the run; resources that fail to
parse, or parse to a non-object value, contribute no keys (they never enter
`consultedObjs`). -/
theorem C5_theorem (a : MergerArgs) (k : String) (m : List (String × Json))
    (h : merger_main a = .ok ⟨0, some m⟩) :
    (hasKey m k = true ↔ ∃ d ∈ consultedObjs a, hasKey d k = true) := by
  cases hv : a.version_dir with
  | none =>
    have hvd : vdirOf a = none := by
      unfold vdirOf
      rw [hv]
    have h2 : (if a.output.isNone && (vdirOf a).isNone then
          (Except.ok ⟨1, none⟩ : Except Unit MergeResult)
        else match basePhase a.base_jar (vdirOf a) a.assets_index
            a.assets_objects with
          | .error e => .error e
          | .ok (m1, _) => .ok ⟨0, some (modsPhase m1 a.mods a.no_mods)⟩)
        = .ok ⟨0, some m⟩ := by
      rw [← h]
      show _ = merger_main a
      unfold merger_main
      rw [hv]
    by_cases ho : a.output.isNone = true
    · rw [if_pos (by rw [hvd]; simp [ho])] at h2
      simp at h2
    · have ho' : a.output.isNone = false := by rwa [Bool.not_eq_true] at ho
      rw [if_neg (by rw [hvd]; simp [ho'])] at h2
      exact mainBody_keys a m k h2
  | some ov =>
    cases ov with
    | none =>
      have h2 : (Except.ok ⟨1, none⟩ : Except Unit MergeResult)
          = .ok ⟨0, some m⟩ := by
        rw [← h]
        show _ = merger_main a
        unfold merger_main
        rw [hv]
      simp at h2
    | some v =>
      have hvd : vdirOf a = some v := by
        unfold vdirOf
        rw [hv]
      have h2 : (if a.output.isNone && (vdirOf a).isNone then
            (Except.ok ⟨1, none⟩ : Except Unit MergeResult)
          else match basePhase a.base_jar (vdirOf a) a.assets_index
              a.assets_objects with
            | .error e => .error e
            | .ok (m1, _) => .ok ⟨0, some (modsPhase m1 a.mods a.no_mods)⟩)
          = .ok ⟨0, some m⟩ := by
        rw [← h]
        show _ = merger_main a
        unfold merger_main
        rw [hv]
      rw [if_neg (by rw [hvd]; simp)] at h2
      exact mainBody_keys a m k h2

/-- Concrete run for the C5 witness: an explicit base archive holding one
localization resource, no assets, no mods, explicit output path. -/
def c5args : MergerArgs :=
  ⟨none,
   some (some [⟨"assets/minecraft/lang/zh_cn.json",
     .ok (.obj [("k1", .str "v1")])⟩]),
   none, none, none, some "out.json", false⟩

/-- Witness for C5 at a concrete run. -/
theorem C5_witness :
    merger_main c5args = .ok ⟨0, some [("k1", .str "v1")]⟩
    ∧ (hasKey [("k1", .str "v1")] "k1" = true
        ↔ ∃ d ∈ consultedObjs c5args, hasKey d "k1" = true) :=
  ⟨rfl, C5_theorem c5args "k1" [("k1", .str "v1")] rfl⟩

/-- C4 (confirmed): for any two localization resources A and B that parse
as JSON objects (so B's keys are unique) and are merged in order A then B by
`merged.update(data)` — across sources, across mod archives, or across
resources within one archive, all of which merge through `dictUpdate` —
every key present in both maps to B's value afterwards (last-write-wins). -/
theorem C4_theorem (a b : List (String × Json)) (k : String)
    (hnd : (b.map Prod.fst).Nodup)
    (ha : hasKey a k = true) (hb : hasKey b k = true) :
    jget (dictUpdate a b) k = jget b k :=
  jget_dictUpdate_right b a k hnd hb

/-- Witness for C4 at concrete resources, matching the worked example of
the specification. -/
theorem C4_witness :
    hasKey [("key.a", Json.str "A")] "key.a" = true
    ∧ hasKey [("key.a", Json.str "Z"), ("key.b", Json.str "B")] "key.a" = true
    ∧ (([("key.a", Json.str "Z"), ("key.b", Json.str "B")].map
        Prod.fst).Nodup)
    ∧ jget (dictUpdate [("key.a", Json.str "A")]
        [("key.a", Json.str "Z"), ("key.b", Json.str "B")]) "key.a"
      = jget [("key.a", Json.str "Z"), ("key.b", Json.str "B")] "key.a" :=
  ⟨rfl, rfl, by decide,
   C4_theorem [("key.a", Json.str "A")]
     [("key.a", Json.str "Z"), ("key.b", Json.str "B")] "key.a"
     (by decide) rfl rfl⟩

/-- The assets load returns the empty failure pair, raises, or returns one
parsed resource with count 1. -/
theorem load_assets_cases (i : Except Unit Json) (o : String → Except Unit Json) :
    load_lang_from_assets i o = .ok ([], 0)
    ∨ load_lang_from_assets i o = .error ()
    ∨ ∃ fields, load_lang_from_assets i o = .ok (fields, 1) := by
  unfold load_lang_from_assets
  repeat' split
  all_goals
    first
    | exact Or.inl rfl
    | exact Or.inr (Or.inl rfl)
    | exact Or.inr (Or.inr ⟨_, rfl⟩)

/-- C10 (confirmed): both load operations return `(mapping, count)` with
`count = 0` forcing an empty mapping; the mods fold merges an archive's
mapping only when its count is nonzero, so archives whose loads all failed
leave the accumulator exactly unchanged; and a base archive yielding
nothing combined with a failing or absent assets pair leaves the base
accumulator empty. -/
theorem C10_theorem :
    (∀ jar : JarData,
      (load_lang_from_jar jar).2 = 0 → (load_lang_from_jar jar).1 = [])
    ∧ (∀ (i : Except Unit Json) (o : String → Except Unit Json)
        (d : List (String × Json)) (c : Nat),
      load_lang_from_assets i o = .ok (d, c) → c = 0 → d = [])
    ∧ (∀ (m0 : List (String × Json)) (listing : List (String × JarData))
        (nm : Bool),
      (∀ p ∈ listing, (load_lang_from_jar p.2).2 = 0) →
      modsPhase m0 (some listing) nm = m0)
    ∧ (∀ (j : JarData) (vd : Option VDir) (ai : Option (Except Unit Json))
        (ao : Option (String → Except Unit Json)),
      (load_lang_from_jar j).2 = 0 → assetsFallback ai ao = .ok ([], 0) →
      basePhase (some j) vd ai ao = .ok ([], 0)) := by
  refine ⟨?_, ?_, ?_, ?_⟩
  · intro jar h
    have hd := load_jar_decomp jar
    have hc := load_jar_count jar
    rw [h] at hc
    have hnil : jarLangObjs jar = [] := List.length_eq_zero.mp hc.symm
    rw [hd, hnil]
    rfl
  · intro i o d c h hc
    subst hc
    rcases load_assets_cases i o with h0 | h0 | ⟨fields, h0⟩
    · rw [h0] at h
      obtain ⟨hd, -⟩ : ([] : List (String × Json)) = d ∧ (0 : Nat) = 0 := by
        simpa using h
      exact hd.symm
    · rw [h0] at h
      simp at h
    · rw [h0] at h
      obtain ⟨-, hc1⟩ : fields = d ∧ (1 : Nat) = 0 := by simpa using h
      exact absurd hc1 (by omega)
  · intro m0 listing nm h
    unfold modsPhase
    by_cases hnm : nm = true
    · simp [hnm]
    · have hnm' : nm = false := by rwa [Bool.not_eq_true] at hnm
      simp only [hnm', Bool.false_eq_true, if_false]
      refine foldl_mods_id _ m0 ?_
      intro p hp
      rw [mem_sortPairs] at hp
      exact h p (List.mem_of_mem_filter hp)
  · intro j vd ai ao hc hf
    show jarThenAssets j ai ao = .ok ([], 0)
    unfold jarThenAssets
    rw [if_neg (by omega), hf]

/-- Witness for C10 at concrete failing sources. -/
theorem C10_witness :
    ((load_lang_from_jar none).2 = 0 ∧ (load_lang_from_jar none).1 = [])
    ∧ (load_lang_from_assets (.error ()) (fun _ => .error ()) = .ok ([], 0)
        ∧ ([] : List (String × Json)) = [])
    ∧ ((∀ p ∈ [("m.jar", (none : JarData))],
          (load_lang_from_jar p.2).2 = 0)
        ∧ modsPhase [("a", Json.str "b")] (some [("m.jar", none)]) false
          = [("a", Json.str "b")])
    ∧ ((load_lang_from_jar none).2 = 0
        ∧ assetsFallback none none = .ok ([], 0)
        ∧ basePhase (some none) none none none = .ok ([], 0)) := by
  have hmem : ∀ p ∈ [("m.jar", (none : JarData))],
      (load_lang_from_jar p.2).2 = 0 := by
    intro p hp
    rw [List.mem_singleton] at hp
    subst hp
    rfl
  exact ⟨⟨rfl, C10_theorem.1 none rfl⟩,
    ⟨rfl, C10_theorem.2.1 (.error ()) (fun _ => .error ()) [] 0 rfl rfl⟩,
    ⟨hmem, C10_theorem.2.2.1 [("a", Json.str "b")] [("m.jar", none)] false hmem⟩,
    ⟨rfl, rfl, C10_theorem.2.2.2 none none none none rfl rfl⟩⟩

/-- C6 (confirmed): base-source resolution is first-match-wins with no
aggregation.  An explicit base archive makes the version directory
irrelevant; a successful archive load is used alone; the assets pair is
consulted only when the archive load found nothing and both the index and
the object store were supplied; and with neither a base archive nor a
version directory, the assets pair is used directly. -/
theorem C6_theorem :
    (∀ (j : JarData) (vd : Option VDir) (ai : Option (Except Unit Json))
        (ao : Option (String → Except Unit Json)),
      basePhase (some j) vd ai ao = basePhase (some j) none ai ao)
    ∧ (∀ (j : JarData) (vd : Option VDir) (ai : Option (Except Unit Json))
        (ao : Option (String → Except Unit Json)),
      (load_lang_from_jar j).2 ≠ 0 →
      basePhase (some j) vd ai ao
        = .ok (dictUpdate [] (load_lang_from_jar j).1,
               (load_lang_from_jar j).2))
    ∧ (∀ (j : JarData) (vd : Option VDir) (i : Except Unit Json)
        (o : String → Except Unit Json),
      (load_lang_from_jar j).2 = 0 →
      basePhase (some j) vd (some i) (some o)
        = assetsFallback (some i) (some o))
    ∧ (∀ (j : JarData) (vd : Option VDir) (ai : Option (Except Unit Json)),
      (load_lang_from_jar j).2 = 0 →
      basePhase (some j) vd ai none = .ok ([], 0))
    ∧ (∀ (j : JarData) (vd : Option VDir)
        (ao : Option (String → Except Unit Json)),
      (load_lang_from_jar j).2 = 0 →
      basePhase (some j) vd none ao = .ok ([], 0))
    ∧ (∀ (i : Except Unit Json) (o : String → Except Unit Json),
      basePhase none none (some i) (some o)
        = assetsFallback (some i) (some o)) := by
  refine ⟨?_, ?_, ?_, ?_, ?_, ?_⟩
  · intro j vd ai ao
    rfl
  · intro j vd ai ao hc
    show jarThenAssets j ai ao = _
    unfold jarThenAssets
    rw [if_pos hc]
  · intro j vd i o hc
    show jarThenAssets j (some i) (some o) = _
    unfold jarThenAssets
    rw [if_neg (by omega)]
  · intro j vd ai hc
    show jarThenAssets j ai none = _
    unfold jarThenAssets
    rw [if_neg (by omega)]
    cases ai <;> rfl
  · intro j vd ao hc
    show jarThenAssets j none ao = _
    unfold jarThenAssets
    rw [if_neg (by omega)]
    cases ao <;> rfl
  · intro i o
    rfl

/-- Concrete archive for the C6 witness: one localization resource. -/
def c6jar : JarData :=
  some [⟨"assets/minecraft/lang/zh_cn.json", .ok (.obj [("x", .str "y")])⟩]

/-- Witness for C6 at concrete inputs. -/
theorem C6_witness :
    ((load_lang_from_jar c6jar).2 ≠ 0
      ∧ basePhase (some c6jar) (some ⟨"1.21", []⟩) none none
        = .ok (dictUpdate [] (load_lang_from_jar c6jar).1,
               (load_lang_from_jar c6jar).2))
    ∧ ((load_lang_from_jar none).2 = 0
      ∧ basePhase (some none) (some ⟨"1.21", []⟩) (some (.error ()))
          (some (fun _ => .error ()))
        = assetsFallback (some (.error ())) (some (fun _ => .error ())))
    ∧ ((load_lang_from_jar none).2 = 0
      ∧ basePhase (some none) none (some (.error ())) none = .ok ([], 0)) :=
  ⟨⟨by decide,
    C6_theorem.2.1 c6jar (some ⟨"1.21", []⟩) none none (by decide)⟩,
   ⟨rfl,
    C6_theorem.2.2.1 none (some ⟨"1.21", []⟩) (.error ())
      (fun _ => .error ()) rfl⟩,
   ⟨rfl,
    C6_theorem.2.2.2.1 none none (some (.error ())) rfl⟩⟩

/-- C7 (confirmed): archive selection in a version directory.  The archive
named `<directory-name>.jar` wins when present; otherwise the head of the
sorted `*.jar` listing is chosen (in particular the sole archive when
exactly one exists); otherwise no archive is selected. -/
theorem C7_theorem (d : VDir) :
    ((d.entries.map Prod.fst).contains (d.name ++ ".jar") = true →
      find_version_jar d = some (d.name ++ ".jar"))
    ∧ ((d.entries.map Prod.fst).contains (d.name ++ ".jar") = false →
      find_version_jar d
        = (sortStrs ((d.entries.map Prod.fst).filter
            (fun f => strEndsWith f ".jar"))).head?)
    ∧ (∀ f : String,
      (d.entries.map Prod.fst).contains (d.name ++ ".jar") = false →
      (d.entries.map Prod.fst).filter (fun f => strEndsWith f ".jar") = [f] →
      find_version_jar d = some f)
    ∧ ((d.entries.map Prod.fst).contains (d.name ++ ".jar") = false →
      (d.entries.map Prod.fst).filter (fun f => strEndsWith f ".jar") = [] →
      find_version_jar d = none) := by
  refine ⟨?_, ?_, ?_, ?_⟩
  · intro h
    unfold find_version_jar
    rw [if_pos h]
  · intro h
    unfold find_version_jar
    rw [if_neg (by intro hc; rw [h] at hc; exact absurd hc (by decide))]
    cases hj : sortStrs ((d.entries.map Prod.fst).filter
        (fun f => strEndsWith f ".jar")) with
    | nil => simp
    | cons x xs =>
      by_cases hl : (x :: xs).length = 1
      · rw [if_pos hl]
      · rw [if_neg hl]
        simp
  · intro f h hf
    unfold find_version_jar
    rw [if_neg (by intro hc; rw [h] at hc; exact absurd hc (by decide)), hf]
    rfl
  · intro h hf
    unfold find_version_jar
    rw [if_neg (by intro hc; rw [h] at hc; exact absurd hc (by decide)), hf]
    rfl

/-- Concrete version directory for the C7 witness: no expected-name
archive, two archives present. -/
def c7dir : VDir :=
  ⟨"1.21", [("b-mod.jar", none), ("a-mod.jar", none), ("notes.txt", none)]⟩

/-- Witness for C7 at a concrete directory: the first sorted archive is
selected. -/
theorem C7_witness :
    (c7dir.entries.map Prod.fst).contains (c7dir.name ++ ".jar") = false
    ∧ find_version_jar c7dir
      = (sortStrs ((c7dir.entries.map Prod.fst).filter
          (fun f => strEndsWith f ".jar"))).head? :=
  ⟨by decide, (C7_theorem c7dir).2.1 (by decide)⟩

/-- Folding the scanner report from a later starting accumulator prepends
that accumulator. -/
theorem scanMods_shift : ∀ (l : List (String × JarData))
    (init : List ReportEntry),
    l.foldl (fun acc p => acc ++ scan_jar p.1 p.2) init = init ++ scanMods l
  | [], init => by simp [scanMods]
  | x :: xs, init => by
    unfold scanMods
    rw [List.foldl_cons, List.foldl_cons, scanMods_shift xs (init ++ scan_jar x.1 x.2),
      scanMods_shift xs (List.nil ++ scan_jar x.1 x.2)]
    simp [scanMods]

/-- C9 (confirmed): an archive that cannot be opened as a valid ZIP archive
contributes exactly one entry, with status `bad_jar`, and nothing else; the
scan continues with the remaining archives unchanged. -/
theorem C9_theorem (n : String) (pre post : List (String × JarData)) :
    scan_jar n none = [⟨n, "", .bad_jar, some "bad zip", none⟩]
    ∧ scanMods (pre ++ (n, none) :: post)
      = scanMods pre ++ ⟨n, "", .bad_jar, some "bad zip", none⟩ :: scanMods post := by
  refine ⟨rfl, ?_⟩
  unfold scanMods
  rw [List.foldl_append, List.foldl_cons, scanMods_shift post, scanMods_shift pre]
  simp [scanMods, scan_jar]

/-- Counterexample to C1: an advancement whose `display` value is present
and is not a JSON object (the truthy string `"hello"`) produces no entry at
all, although the claim requires a `no_display` entry for every non-object
`display`. -/
theorem C1_counterexample :
    scanEntry "a.jar" ⟨"data/ns/advancements/r.json",
      .ok (.obj [("display", .str "hello")])⟩ = [] := by decide

/-- C1 (corrected): for a parsed definition at a scanned path, a
`no_display` entry is emitted exactly when the value `data.get("display")`
(taken as `None` when the document is not an object) is Python-falsy —
absent, `null`, `false`, `0`, `""`, an empty array, or an empty object; a
truthy `display` (of any type, object or not) never yields `no_display`. -/
theorem C1_amended (jar path : String) (data : Json)
    (hf : advFilter path = true) :
    (pyTruthyOpt (displayOf data) = false →
      scanEntry jar ⟨path, .ok data⟩
        = [⟨jar, path, .no_display, none, none⟩])
    ∧ (pyTruthyOpt (displayOf data) = true →
      ∀ r ∈ scanEntry jar ⟨path, .ok data⟩, r.status ≠ .no_display) := by
  constructor
  · intro ht
    unfold scanEntry
    rw [if_pos hf]
    unfold classify
    simp [ht, Bool.false_eq_true]
  · intro ht r hr
    unfold scanEntry at hr
    rw [if_pos hf] at hr
    unfold classify at hr
    simp only [ht, if_true] at hr
    by_cases ha : isLitFalse (announceOf (displayOf data)) = true
    · simp only [ha, if_true, List.mem_singleton] at hr
      subst hr
      simp
    · have ha' : isLitFalse (announceOf (displayOf data)) = false := by
        rwa [Bool.not_eq_true] at ha
      simp [ha', Bool.false_eq_true] at hr

/-- Witness for C1 at a concrete definition lacking `display`. -/
theorem C1_witness :
    advFilter "data/ns/advancements/w.json" = true
    ∧ pyTruthyOpt (displayOf (.obj [("criteria", .obj [])])) = false
    ∧ scanEntry "w.jar" ⟨"data/ns/advancements/w.json",
        .ok (.obj [("criteria", .obj [])])⟩
      = [⟨"w.jar", "data/ns/advancements/w.json", .no_display, none, none⟩] :=
  ⟨by decide, rfl,
   (C1_amended "w.jar" "data/ns/advancements/w.json"
     (.obj [("criteria", .obj [])]) (by decide)).1 rfl⟩

/-- Counterexample to C3: an advancement whose `display` value is the empty
JSON object (present, and an object, with `announce_to_chat` absent) does
get an entry — a `no_display` one — although the claim requires that no
entry be emitted for that file. -/
theorem C3_counterexample :
    scanEntry "b.jar" ⟨"data/ns/advancements/s.json",
      .ok (.obj [("display", .obj [])])⟩
    = [⟨"b.jar", "data/ns/advancements/s.json", .no_display, none, none⟩] := by
  decide

/-- C3 (corrected): for every advancement definition whose `display` value
is a non-empty JSON object, an `announce_to_chat_false` entry (carrying
`false`) is emitted exactly when `display.announce_to_chat` is present and
is the literal `false`, and otherwise no entry is emitted; an empty
`display` object instead falls into the truthiness-based `no_display`
branch. -/
theorem C3_amended (jar path : String) (data : Json)
    (fs : List (String × Json)) (hf : advFilter path = true)
    (hd : displayOf data = some (.obj fs)) (hne : fs ≠ []) :
    scanEntry jar ⟨path, .ok data⟩
      = (if isLitFalse (jget fs "announce_to_chat") then
          [⟨jar, path, .announce_to_chat_false, none, some false⟩]
        else []) := by
  unfold scanEntry
  rw [if_pos hf]
  unfold classify
  have ht : pyTruthyOpt (displayOf data) = true := by
    rw [hd]
    show pyTruthy (.obj fs) = true
    unfold pyTruthy
    simp [hne]
  have hann : announceOf (displayOf data) = jget fs "announce_to_chat" := by
    rw [hd]
    rfl
  simp only [ht, if_true, hann]

/-- Witness for C3 at a concrete definition announcing `false`. -/
theorem C3_witness :
    advFilter "data/ns/advancements/t.json" = true
    ∧ displayOf (.obj [("display",
        .obj [("announce_to_chat", .bool false)])])
      = some (.obj [("announce_to_chat", .bool false)])
    ∧ scanEntry "t.jar" ⟨"data/ns/advancements/t.json",
        .ok (.obj [("display", .obj [("announce_to_chat", .bool false)])])⟩
      = (if isLitFalse (jget [("announce_to_chat", Json.bool false)]
            "announce_to_chat") then
          [⟨"t.jar", "data/ns/advancements/t.json",
            .announce_to_chat_false, none, some false⟩]
         else []) :=
  ⟨by decide, rfl,
   C3_amended "t.jar" "data/ns/advancements/t.json"
     (.obj [("display", .obj [("announce_to_chat", .bool false)])])
     [("announce_to_chat", .bool false)] (by decide) rfl
     (List.cons_ne_nil _ _)⟩

/-- Modelled from the spec: the glob pattern `data/*/advancements/**/*.json`
— a `data/` prefix, then a single non-empty namespace segment without `/`,
then `/advancements/`, then any descent ending in `.json`.  Stated as a
computable test: the namespace segment is forced to be the maximal
slash-free run after `data/`. -/
def matchesSpecPattern (path : String) : Bool :=
  ("data/").data.isPrefixOf path.data &&
    ((!((path.data.drop 5).takeWhile (fun c => !(c == '/'))).isEmpty) &&
      ("/advancements/").data.isPrefixOf
        ((path.data.drop 5).drop
          ((path.data.drop 5).takeWhile (fun c => !(c == '/'))).length) &&
      listEndsWith
        ((path.data.drop 5).drop
          (((path.data.drop 5).takeWhile (fun c => !(c == '/'))).length + 14))
        (".json").data)

/-- Every path matching the spec's glob also passes the scanner's
substring-based filter. -/
theorem globMatch_passes_advFilter (path : String)
    (h : matchesSpecPattern path = true) : advFilter path = true := by
  unfold matchesSpecPattern at h
  simp only [Bool.and_eq_true] at h
  obtain ⟨h1, ⟨hns, h3⟩, h4⟩ := h
  unfold advFilter strStartsWith strContains strEndsWith
  simp only [Bool.and_eq_true]
  refine ⟨⟨h1, ?_⟩, ?_⟩
  · rw [containsSeq_eq_true]
    obtain ⟨t, ht⟩ := (isPrefixOf_eq_true _ _).1 h3
    rw [List.drop_drop] at ht
    refine ⟨path.data.take
      (5 + ((path.data.drop 5).takeWhile (fun c => !(c == '/'))).length),
      t, ?_⟩
    rw [List.append_assoc, ← ht, List.take_append_drop]
  · rw [listEndsWith_eq_true]
    obtain ⟨w, hw⟩ := (listEndsWith_eq_true _ _).1 h4
    rw [List.drop_drop] at hw
    refine ⟨path.data.take
      (5 + (((path.data.drop 5).takeWhile (fun c => !(c == '/'))).length + 14))
      ++ w, ?_⟩
    rw [List.append_assoc, ← hw, List.take_append_drop]

/-- Counterexample to C2: the path `data/a/b/advancements/x.json` (two
segments between `data/` and `advancements/`) does not match the spec's
glob, yet the scanner parses and classifies it, emitting an entry. -/
theorem C2_counterexample :
    matchesSpecPattern "data/a/b/advancements/x.json" = false
    ∧ scanEntry "m.jar" ⟨"data/a/b/advancements/x.json", .ok (.obj [])⟩
      = [⟨"m.jar", "data/a/b/advancements/x.json", .no_display, none, none⟩] :=
  ⟨by decide, by decide⟩

/-- C2 (corrected): the set of internal paths the scanner parses and
classifies is exactly the set passing the substring filter — start with
`data/`, contain `/advancements/` anywhere, end with `.json` — which is a
strict superset of the glob `data/*/advancements/**/*.json`: every
glob-matching path passes the filter, every path failing the filter is
skipped without an entry, and the filter is characterized by the three
string conditions. -/
theorem C2_amended :
    (∀ path : String,
      matchesSpecPattern path = true → advFilter path = true)
    ∧ (∀ (jar : String) (e : ZipEntry),
      advFilter e.path = false → scanEntry jar e = [])
    ∧ (∀ path : String, advFilter path = true ↔
        ((∃ t, path.data = ("data/").data ++ t)
         ∧ (∃ u v, path.data = u ++ ("/advancements/").data ++ v)
         ∧ (∃ w, path.data = w ++ (".json").data))) := by
  refine ⟨globMatch_passes_advFilter, ?_, ?_⟩
  · intro jar e h
    unfold scanEntry
    rw [if_neg (by intro hc; rw [h] at hc; exact absurd hc (by decide))]
  · intro path
    unfold advFilter strStartsWith strContains strEndsWith
    simp only [Bool.and_eq_true]
    rw [isPrefixOf_eq_true, containsSeq_eq_true, listEndsWith_eq_true]
    tauto

/-- Witness for C2 at a concrete glob-matching path. -/
theorem C2_witness :
    matchesSpecPattern "data/ns/advancements/root.json" = true
    ∧ advFilter "data/ns/advancements/root.json" = true :=
  ⟨by decide, C2_amended.1 "data/ns/advancements/root.json" (by decide)⟩

/-- Failing run for C8: no version directory, an output path, no base
archive, and an assets pair whose index file parses to the JSON array
`[1]`.  Python reaches `index.get("objects", {})` on a list and raises an
uncaught `AttributeError`, so `main` neither returns 0 nor writes the
mapping, contradicting the claimed exit-code contract (and the spec's
stated policy that a malformed index is a non-fatal warning). -/
def c8args : MergerArgs :=
  ⟨none, none, some (.ok (.arr [.num 1])), some (fun _ => .error ()), none,
   some "out.json", false⟩

/-- C8 (code bug): on the failing input the embedded `main` propagates the
uncaught exception instead of returning an exit code. -/
theorem C8_eval : merger_main c8args = .error () := rfl
